import Mathlib

/-!
# Verification of the SoundcloudDWN download-queue core

Shallow embedding of the job-queue / progress-reporting subsystem of the
repository, taken from its two source programs:

* `web_downloader.py` — the Flask backend.  Its `DownloadQueue` keeps an
  insertion-ordered map of item dicts; `start_download` (route
  `/api/download`) creates one item per non-blank query and spawns one
  daemon thread running `download_worker` per item; `progress_hook`
  translates engine callbacks into item updates.
* `soundcloud_downloader_improved.py` — the Tkinter app.  `DownloaderThread`
  performs a single download, reporting messages over a `queue.Queue`;
  `EnhancedApp._on_cancel` sets the shared `threading.Event`.

Python `str` is modelled as Lean `String` (Python slices `s[:n]` as
`pyTake`, `str.strip` as `pyStrip`); Python ints as `Nat` (all the
counters involved are non-negative); float percentage arithmetic
`int(done / total * 100)` as exact truncated division `(100 * done) / total`;
`None`-able fields as `Option`.  Thread interleaving is modelled by a
small-step transition relation over the global queue state: every worker
step is an atomic `DownloadQueue.update` call, and any interleaving of the
per-item workers is reachable, which is the faithful abstraction of the
free preemption of Python daemon threads.  Item ids (`uuid4()[:8]` in the
source) are modelled as consecutive naturals: the abstraction keeps their
one property the code relies on, uniqueness.
-/

/-- Python slice `s[:n]`. -/
def pyTake (s : String) (n : Nat) : String :=
  String.mk (s.data.take n)

/-- Python `str.strip()`: remove leading and trailing whitespace. -/
def pyStrip (s : String) : String :=
  String.mk
    (((s.data.dropWhile Char.isWhitespace).reverse.dropWhile
        Char.isWhitespace).reverse)

/-- One queue item, the dict built by `DownloadQueue.add`
(`web_downloader.py`, lines 46-60). -/
structure Item where
  id : Nat
  query : String
  status : String
  progress : Nat
  title : String
  artist : String
  error : Option String
  file_path : Option String
  preview_url : Option String
deriving DecidableEq

/-- The fresh dict `DownloadQueue.add` stores (`web_downloader.py`,
lines 49-59). -/
def mkPendingItem (n : Nat) (query : String) : Item :=
  { id := n
  , query := query
  , status := "pending"
  , progress := 0
  , title := pyTake query 50
  , artist := ""
  , error := none
  , file_path := none
  , preview_url := none }

/-- `DownloadQueue.add`: appends the fresh pending dict at the tail of the
insertion-ordered collection and returns the updated collection together
with the next fresh id. -/
def DownloadQueue.add (items : List Item) (nextId : Nat) (query : String) :
    List Item × Nat :=
  (items ++ [mkPendingItem nextId query], nextId + 1)

/-- The update messages a worker can send through `DownloadQueue.update`.
Each constructor corresponds to one literal `download_queue.update(...)`
call site in `web_downloader.py`; `batchComplete` is the event the spec
demands (`BatchComplete{completedCount, totalCount}`) — it appears in the
vocabulary so that its absence from the code's behaviour can be stated,
and no transition of the code model ever emits it. -/
inductive WEvent where
  | setSearching (id : Nat)
  | setResolved (id : Nat) (title artist previewUrl : String)
  | setProgress (id : Nat) (p : Nat)
  | setFinished (id : Nat)
  | setComplete (id : Nat) (filePath : Option String)
  | setError (id : Nat) (msg : String)
  | batchComplete (completedCount totalCount : Nat)
deriving DecidableEq

/-- The item id an event is about (`batchComplete` carries none). -/
def eventItemId : WEvent → Option Nat
  | .setSearching i => some i
  | .setResolved i _ _ _ => some i
  | .setProgress i _ => some i
  | .setFinished i => some i
  | .setComplete i _ => some i
  | .setError i _ => some i
  | .batchComplete _ _ => none

/-- Whether an event is the spec's batch-complete event. -/
def isBatchEvent : WEvent → Bool
  | .batchComplete _ _ => true
  | _ => false

/-- Effect of one `DownloadQueue.update(item_id, **kwargs)` call on a single
stored dict: the kwargs of the corresponding call site are merged when the
id matches, otherwise the dict is untouched. -/
def updOne (e : WEvent) (it : Item) : Item :=
  match e with
  | .setSearching i =>
      if it.id = i then { it with status := "searching" } else it
  | .setResolved i t a u =>
      if it.id = i then
        { it with title := t, artist := a, status := "downloading",
                  preview_url := some u }
      else it
  | .setProgress i p =>
      if it.id = i then { it with progress := p, status := "downloading" }
      else it
  | .setFinished i =>
      if it.id = i then { it with status := "processing", progress := 95 }
      else it
  | .setComplete i fp =>
      if it.id = i then
        { it with status := "complete", progress := 100, file_path := fp }
      else it
  | .setError i m =>
      if it.id = i then { it with status := "error", error := some m }
      else it
  | .batchComplete _ _ => it

/-- `DownloadQueue.update`: merges the kwargs into the dict stored under the
given id, a no-op when the id is absent (`web_downloader.py`, lines 62-65).
Note the source has no guard on the current status of the item. -/
def DownloadQueue.update (e : WEvent) (items : List Item) : List Item :=
  items.map (updOne e)

/-- Control position of one `download_worker` thread. -/
inductive WPhase where
  /-- spawned by `start_download`, has not executed its first statement. -/
  | init
  /-- executed `update(status="searching")`, inside `extract_info`. -/
  | resolving
  /-- resolution succeeded, inside `ydl.download` (progress hooks fire
  here) or in the file-locating epilogue. -/
  | fetching
  /-- the function returned (after its terminal update). -/
  | done
deriving DecidableEq

/-- Global state of the web backend: the shared `DownloadQueue`, the worker
threads spawned by `start_download`, and the trace of update calls
performed so far (the only channel by which the code communicates item
state to the observer, who polls `/api/queue`).  `workers[k]` is the
control position of the thread spawned for the item with id `k`: the route
creates items with consecutive ids starting at 0 and spawns exactly one
thread per item in the same order, so position-as-id encodes the
association faithfully. -/
structure WState where
  items : List Item
  workers : List WPhase
  trace : List WEvent
deriving DecidableEq

/-- Snapshot accessor `DownloadQueue.get_all` (route `/api/queue`). -/
def get_all (s : WState) : List Item :=
  s.items

/-- `DownloadQueue.get`-style lookup of an item by id. -/
def findItem (s : WState) (i : Nat) : Option Item :=
  s.items.find? (fun it => it.id == i)

/-- Execute one worker step: apply the update to the queue, advance worker
`k` to phase `p`, record the update in the trace. -/
def doStep (s : WState) (k : Nat) (e : WEvent) (p : WPhase) : WState :=
  { items := DownloadQueue.update e s.items
  , workers := s.workers.set k p
  , trace := s.trace ++ [e] }

/-- Small-step transition relation of the web backend after a batch has
been submitted.  Each constructor is one atomic `download_queue.update`
call of `download_worker` (lines 82-161) or `progress_hook`
(lines 163-171); `clear` is the `/api/queue/clear` route.  Any worker may
step at any time: the threads are freely preempted. -/
inductive WStep : WState → WState → Prop
  /-- first statement of `download_worker`:
  `update(item_id, status="searching")`. -/
  | search {s : WState} (k : Nat)
      (hk : s.workers[k]? = some WPhase.init) :
      WStep s (doStep s k (WEvent.setSearching k) WPhase.resolving)
  /-- `extract_info` succeeded: `update(item_id, title=title, artist=artist,
  status="downloading", preview_url=webpage_url)` with
  `title = info.get('title', query)[:50]`. -/
  | resolveOk {s : WState} (k : Nat) (t a u : String)
      (hk : s.workers[k]? = some WPhase.resolving) :
      WStep s (doStep s k
        (WEvent.setResolved k (pyTake t 50) a u) WPhase.fetching)
  /-- the `except` clause: any exception raised while resolving or fetching
  produces `update(item_id, status="error", error=str(e)[:100])`. -/
  | fail {s : WState} (k : Nat) (msg : String)
      (hk : s.workers[k]? = some WPhase.resolving ∨
            s.workers[k]? = some WPhase.fetching) :
      WStep s (doStep s k
        (WEvent.setError k (pyTake msg 100)) WPhase.done)
  /-- a `downloading` progress hook with positive total:
  `update(item_id, progress=int(done/total*100), status="downloading")`
  (exact truncated division models the float computation).  With total 0
  the hook performs no update, hence no step. -/
  | progress {s : WState} (k dled tot : Nat)
      (hk : s.workers[k]? = some WPhase.fetching) (ht : 0 < tot) :
      WStep s (doStep s k
        (WEvent.setProgress k ((100 * dled) / tot)) WPhase.fetching)
  /-- a `finished` progress hook:
  `update(item_id, status="processing", progress=95)`. -/
  | finished {s : WState} (k : Nat)
      (hk : s.workers[k]? = some WPhase.fetching) :
      WStep s (doStep s k (WEvent.setFinished k) WPhase.fetching)
  /-- `ydl.download` returned and the file was located: `update(item_id,
  status="complete", progress=100, file_path=...)`, the worker's last
  statement. -/
  | complete {s : WState} (k : Nat) (fp : Option String)
      (hk : s.workers[k]? = some WPhase.fetching) :
      WStep s (doStep s k (WEvent.setComplete k fp) WPhase.done)
  /-- `DownloadQueue.clear` (route `/api/queue/clear`): discards every item;
  threads are not touched and nothing is emitted. -/
  | clear {s : WState} :
      WStep s { items := [], workers := s.workers, trace := s.trace }

/-- Reflexive-transitive closure of `WStep`. -/
inductive Steps : WState → WState → Prop
  | refl (s : WState) : Steps s s
  | tail {s t u : WState} (h1 : Steps s t) (h2 : WStep t u) : Steps s u

/-- The item-creation loop of `start_download` (route `/api/download`,
lines 415-425): strip each query, skip blank ones, `add` the rest in input
order. -/
def startDownloadItems : List String → List Item → Nat → List Item × Nat
  | [], items, n => (items, n)
  | q :: qs, items, n =>
    let q2 := pyStrip q
    if q2 = "" then startDownloadItems qs items n
    else
      let r := DownloadQueue.add items n q2
      startDownloadItems qs r.1 r.2

/-- State right after `start_download` returns: one pending item per
non-blank query, and one freshly spawned worker thread per item (the route
starts a daemon `threading.Thread(target=download_worker, ...)` for every
added item, inside the same loop). -/
def start_download (queries : List String) : WState :=
  let r := startDownloadItems queries [] 0
  { items := r.1
  , workers := r.1.map (fun _ => WPhase.init)
  , trace := [] }

/-- The non-blank stripped queries, in input order (spec-side description
of which queries produce an item). -/
def cleanQueries (qs : List String) : List String :=
  (qs.map (fun q => pyStrip q)).filter (fun q => q != "")

/-- The terminal statuses of the spec's state machine. -/
def isTerminalStatus (st : String) : Bool :=
  st == "complete" || st == "error" || st == "canceled"

/-- The spec's abstract status vocabulary
{Pending, Resolving, Downloading, Complete, Error, Canceled}. -/
def canonicalStatuses : List String :=
  ["pending", "resolving", "downloading", "complete", "error", "canceled"]

/-- The statuses the spec calls active (Resolving maps to the code's
`"searching"`, Downloading to `"downloading"`). -/
def isActiveStatus (st : String) : Bool :=
  st == "searching" || st == "downloading"

/-!
## The desktop program (`soundcloud_downloader_improved.py`)

`DownloaderThread` performs one download and communicates with the UI only
through `progress_queue` messages, modelled by `DMsg`.  The shared
cancellation signal is a `threading.Event` that `_on_cancel` sets and only
`_on_download` (before spawning a new worker) clears, so during one run of
the worker it is monotone: once observed true it stays true.
-/

/-- One message on the desktop app's `progress_queue`. -/
inductive DMsg where
  | status (text : String)
  | info
  | progress (percent : Option Nat) (downloaded : Nat)
  | complete (text : String)
  | error (text : String)
  | canceled (text : String)
deriving DecidableEq

/-- One invocation of `DownloaderThread._progress_hook`: the value of the
stop event at the instant of the call, and the dict yt-dlp passed. -/
structure DHook where
  stopSet : Bool
  hstatus : String
  downloaded : Nat
  total : Nat
  filename : String
  errMsg : String
deriving DecidableEq

/-- `DownloaderThread._handle_download_progress` (lines 428-447): the
percent put on the queue is `min(100.0, downloaded/total*100.0)` when
`total > 0` and `None` (indeterminate) otherwise. -/
def handleDownloadProgress (downloaded total : Nat) : DMsg :=
  if 0 < total then
    DMsg.progress (some (min 100 ((100 * downloaded) / total))) downloaded
  else
    DMsg.progress none downloaded

/-- The messages `_progress_hook` emits once past its cancellation check
(lines 416-426). -/
def progressHookMsgs (d : DHook) : List DMsg :=
  if d.hstatus = "downloading" then
    [handleDownloadProgress d.downloaded d.total]
  else if d.hstatus = "finished" then
    [DMsg.status ("Descarga finalizada: " ++ d.filename),
     DMsg.status "Procesando audio..."]
  else if d.hstatus = "error" then
    [DMsg.error ("Error en descarga: " ++ d.errMsg)]
  else []

/-- Run the sequence of progress-hook invocations of one `ydl.download`
call.  `_progress_hook` first checks `self.stop_event.is_set()` and raises
`yt_dlp.DownloadError("User cancelled")` when set (lines 412-414), which
aborts the download: no message is emitted by that call and no later hook
runs.  Returns the emitted messages and whether a hook raised. -/
def runHooks : List DHook → List DMsg × Bool
  | [] => ([], false)
  | d :: rest =>
    if d.stopSet then ([], true)
    else
      let r := runHooks rest
      (progressHookMsgs d ++ r.1, r.2)

/-- `DownloaderThread.run` / `_download` for one download (no custom
cover, no artist folders): the fixed preamble messages, then the fetch
with its hook invocations `hooks`; `fetchRaises` tells whether the engine
itself raised (independently of cancellation), `stopAtEnd` is the value of
the stop event after the fetch (by monotonicity, the value at the `except`
clause and at the final `is_set` check), `emsg` the text of the exception.
The `except` clause of `run` (lines 200-210) classifies any exception as
`canceled` when the stop event is set and as `error` otherwise; on a clean
return, `complete` is put only if the stop event is not set (line 335). -/
def runWorker (hooks : List DHook) (fetchRaises : Bool) (stopAtEnd : Bool)
    (emsg : String) : List DMsg :=
  let pre := [DMsg.status "Extrayendo información...", DMsg.info,
              DMsg.status "Iniciando descarga..."]
  let r := runHooks hooks
  if r.2 || fetchRaises then
    pre ++ r.1 ++ [if stopAtEnd then
                     DMsg.canceled "Descarga cancelada por usuario"
                   else DMsg.error ("Error: " ++ emsg)]
  else
    pre ++ r.1 ++ (if stopAtEnd then []
                   else [DMsg.complete "Descarga completada exitosamente"])

/-- UI-side state of the desktop app relevant to cancellation: the shared
stop event, the status label, and the button states.  `btn_cancel` is
enabled exactly while a download run is active (`_on_download` enables it,
`_finish_download` disables it), and `_periodic_check` uses it as the
running flag, so it models the spec's running/idle flag. -/
structure DAppState where
  stopEvent : Bool
  statusLabel : String
  btnDownloadEnabled : Bool
  btnCancelEnabled : Bool
  progressValue : Nat
deriving DecidableEq

/-- `EnhancedApp._on_cancel` (lines 1616-1619), confirmed branch: set the
shared event, update the label, return.  Nothing else is touched and the
call does not block. -/
def onCancel (s : DAppState) : DAppState :=
  { s with stopEvent := true, statusLabel := "Cancelando..." }

/-- `EnhancedApp._finish_download` (lines 1710-1738), button/progress part:
runs when the worker has reached a terminal state (or died). -/
def finishDownload (s : DAppState) (success : Bool) : DAppState :=
  { s with btnDownloadEnabled := true
         , btnCancelEnabled := false
         , progressValue := if success then s.progressValue else 0 }

/-!
## The web progress hook as a pure function (for the progress claims)
-/

/-- The dict `yt_dlp` passes to `progress_hook` in `web_downloader.py`;
`total_bytes` is `None` when unknown, `total_bytes_estimate` defaults
to 0. -/
structure PHook where
  status : String
  total_bytes : Option Nat
  total_bytes_estimate : Nat
  downloaded_bytes : Nat
deriving DecidableEq

/-- `total = d.get('total_bytes') or d.get('total_bytes_estimate', 0)`:
Python `or` falls through on `None` and on `0`. -/
def hookTotal (d : PHook) : Nat :=
  match d.total_bytes with
  | some n => if n = 0 then d.total_bytes_estimate else n
  | none => d.total_bytes_estimate

/-- `progress_hook` (`web_downloader.py`, lines 163-171) as its effect on
the stored item: on a `downloading` callback with positive total it stores
`int(done / total * 100)` — no clamping; on `finished` it stores status
`"processing"`, progress 95. -/
def progress_hook (d : PHook) (it : Item) : Item :=
  if d.status = "downloading" then
    if 0 < hookTotal d then
      { it with progress := (100 * d.downloaded_bytes) / hookTotal d
              , status := "downloading" }
    else it
  else if d.status = "finished" then
    { it with status := "processing", progress := 95 }
  else it

/-- Key invariant of the web model: an item that has reached a terminal
status has a worker that already returned (its function performs its
terminal update as its last queue operation). -/
def WInv (s : WState) : Prop :=
  ∀ it ∈ s.items, isTerminalStatus it.status = true →
    s.workers[it.id]? = some WPhase.done

/-- Status of the item with id `i` as exposed by the snapshot API. -/
def statusOf (s : WState) (i : Nat) : Option String :=
  (findItem s i).map Item.status

/-! ## General lemmas -/

theorem pyTake_length (s : String) (n : Nat) : (pyTake s n).length ≤ n := by
  show (s.data.take n).length ≤ n
  rw [List.length_take]
  omega

theorem updOne_id (e : WEvent) (it : Item) : (updOne e it).id = it.id := by
  cases e <;> simp only [updOne] <;> split <;> rfl

theorem updOne_of_ne (e : WEvent) (it : Item)
    (h : eventItemId e ≠ some it.id) : updOne e it = it := by
  cases e <;>
    simp only [eventItemId, ne_eq, Option.some.injEq] at h ⊢ <;>
    first
      | rfl
      | (simp only [updOne]; rw [if_neg (fun hid => h hid.symm)])

theorem find?_update (e : WEvent) (items : List Item) (i : Nat) :
    (DownloadQueue.update e items).find? (fun it => it.id == i) =
      Option.map (updOne e) (items.find? (fun it => it.id == i)) := by
  induction items with
  | nil => rfl
  | cons it rest ih =>
      by_cases hid : it.id = i
      · have h1 : ((updOne e it).id == i) = true := by
          simp [updOne_id, hid]
        have h2 : (it.id == i) = true := by simp [hid]
        simp only [DownloadQueue.update, List.map_cons] at *
        rw [@List.find?_cons_of_pos Item (fun it2 => it2.id == i)
              (updOne e it) (List.map (updOne e) rest) h1,
            @List.find?_cons_of_pos Item (fun it2 => it2.id == i) it rest h2]
        rfl
      · have h1 : ¬ ((updOne e it).id == i) = true := by
          simp [updOne_id, hid]
        have h2 : ¬ (it.id == i) = true := by simp [hid]
        simp only [DownloadQueue.update, List.map_cons] at *
        rw [@List.find?_cons_of_neg Item (fun it2 => it2.id == i)
              (updOne e it) (List.map (updOne e) rest) h1,
            @List.find?_cons_of_neg Item (fun it2 => it2.id == i) it rest h2]
        exact ih

theorem Steps.trans {a b c : WState} (h1 : Steps a b) (h2 : Steps b c) :
    Steps a c := by
  induction h2 with
  | refl => exact h1
  | tail _ hstep ih => exact Steps.tail ih hstep

theorem startDownloadItems_eq (qs : List String) (items : List Item)
    (n : Nat) :
    startDownloadItems qs items n =
      (items ++ (cleanQueries qs).mapIdx (fun i q => mkPendingItem (n + i) q),
        n + (cleanQueries qs).length) := by
  induction qs generalizing items n with
  | nil => simp [startDownloadItems, cleanQueries]
  | cons q qs ih =>
      by_cases h : pyStrip q = ""
      · have hc : cleanQueries (q :: qs) = cleanQueries qs := by
          simp [cleanQueries, h]
        rw [hc]
        simp only [startDownloadItems, h, if_pos]
        exact ih items n
      · have hc : cleanQueries (q :: qs) = pyStrip q :: cleanQueries qs := by
          simp [cleanQueries, h]
        rw [hc]
        have hunf : startDownloadItems (q :: qs) items n =
            startDownloadItems qs (items ++ [mkPendingItem n (pyStrip q)])
              (n + 1) := by
          simp only [startDownloadItems, DownloadQueue.add]
          rw [if_neg h]
        rw [hunf, ih]
        have harg : (fun i q2 => mkPendingItem (n + 1 + i) q2) =
            (fun i (q2 : String) => mkPendingItem (n + (i + 1)) q2) := by
          funext i q2
          congr 1
          omega
        rw [List.mapIdx_cons, harg]
        simp only [Prod.mk.injEq]
        refine ⟨?_, ?_⟩
        · rw [List.append_assoc, List.singleton_append, Nat.add_zero]
        · simp only [List.length_cons]
          omega

theorem start_download_items (qs : List String) :
    (start_download qs).items =
      (cleanQueries qs).mapIdx (fun i q => mkPendingItem i q) := by
  show (startDownloadItems qs [] 0).1 = _
  rw [startDownloadItems_eq]
  simp

theorem init_items_pending (qs : List String) :
    ∀ it ∈ (start_download qs).items, it.status = "pending" := by
  intro it hit
  rw [start_download_items] at hit
  obtain ⟨i, hi, heq⟩ := List.exists_of_mem_mapIdx hit
  rw [← heq]
  rfl

theorem winv_init (qs : List String) : WInv (start_download qs) := by
  intro it hit hterm
  rw [init_items_pending qs it hit] at hterm
  exact absurd hterm (by decide)

theorem winv_doStep_nonterm {s : WState} (hw : WInv s) (k : Nat) (e : WEvent)
    (p : WPhase) (hid : eventItemId e = some k)
    (hnt : ∀ it : Item, it.id = k →
      isTerminalStatus (updOne e it).status = false) :
    WInv (doStep s k e p) := by
  intro it' hit' hterm
  obtain ⟨it, hit, rfl⟩ := List.mem_map.mp hit'
  by_cases hidk : it.id = k
  · rw [hnt it hidk] at hterm
    cases hterm
  · have hne : eventItemId e ≠ some it.id := by
      rw [hid]
      simp only [ne_eq, Option.some.injEq]
      exact fun hh => hidk hh.symm
    rw [updOne_of_ne e it hne] at hterm ⊢
    have hdone := hw it hit hterm
    show (s.workers.set k p)[it.id]? = some WPhase.done
    rw [List.getElem?_set_ne (fun hh => hidk hh.symm)]
    exact hdone

theorem winv_doStep_done {s : WState} (hw : WInv s) (k : Nat) (e : WEvent)
    (hid : eventItemId e = some k) (hk : k < s.workers.length) :
    WInv (doStep s k e WPhase.done) := by
  intro it' hit' hterm
  obtain ⟨it, hit, rfl⟩ := List.mem_map.mp hit'
  by_cases hidk : it.id = k
  · rw [updOne_id, hidk]
    show (s.workers.set k WPhase.done)[k]? = some WPhase.done
    rw [List.getElem?_set_self hk]
  · have hne : eventItemId e ≠ some it.id := by
      rw [hid]
      simp only [ne_eq, Option.some.injEq]
      exact fun hh => hidk hh.symm
    rw [updOne_of_ne e it hne] at hterm ⊢
    have hdone := hw it hit hterm
    show (s.workers.set k WPhase.done)[it.id]? = some WPhase.done
    rw [List.getElem?_set_ne (fun hh => hidk hh.symm)]
    exact hdone

theorem winv_step {s s' : WState} (hw : WInv s) (h : WStep s s') : WInv s' := by
  cases h with
  | search k hk =>
      exact winv_doStep_nonterm hw k _ _ rfl (by
        intro it hidk
        simp [updOne, hidk, isTerminalStatus])
  | resolveOk k t a u hk =>
      exact winv_doStep_nonterm hw k _ _ rfl (by
        intro it hidk
        simp [updOne, hidk, isTerminalStatus])
  | progress k dled tot hk ht =>
      exact winv_doStep_nonterm hw k _ _ rfl (by
        intro it hidk
        simp [updOne, hidk, isTerminalStatus])
  | finished k hk =>
      exact winv_doStep_nonterm hw k _ _ rfl (by
        intro it hidk
        simp [updOne, hidk, isTerminalStatus])
  | fail k msg hk =>
      refine winv_doStep_done hw k _ rfl ?_
      rcases hk with hk | hk <;>
        exact (List.getElem?_eq_some.mp hk).1
  | complete k fp hk =>
      exact winv_doStep_done hw k _ rfl (List.getElem?_eq_some.mp hk).1
  | clear =>
      intro it hit hterm
      cases hit

theorem winv_reach {qs : List String} {s : WState}
    (h : Steps (start_download qs) s) : WInv s := by
  induction h with
  | refl => exact winv_init qs
  | tail _ hstep ih => exact winv_step ih hstep

theorem doStep_preserve {t : WState} (i k : Nat) (e : WEvent) (p : WPhase)
    (hki : k ≠ i) (hid : eventItemId e = some k)
    (hdone : t.workers[i]? = some WPhase.done) :
    (doStep t k e p).workers[i]? = some WPhase.done ∧
    findItem (doStep t k e p) i = findItem t i ∧
    (doStep t k e p).trace = t.trace ++ [e] ∧ eventItemId e ≠ some i := by
  refine ⟨?_, ?_, rfl, ?_⟩
  · show (t.workers.set k p)[i]? = some WPhase.done
    rw [List.getElem?_set_ne hki]
    exact hdone
  · show (DownloadQueue.update e t.items).find? (fun it => it.id == i) =
      t.items.find? (fun it => it.id == i)
    rw [find?_update]
    cases hf : t.items.find? (fun it => it.id == i) with
    | none => rfl
    | some it0 =>
        have hid0 : it0.id = i := by simpa using List.find?_some hf
        have hne : eventItemId e ≠ some it0.id := by
          rw [hid, hid0]
          simp only [ne_eq, Option.some.injEq]
          exact hki
        rw [Option.map_some', updOne_of_ne e it0 hne]
  · rw [hid]
    simp only [ne_eq, Option.some.injEq]
    exact hki

theorem step_preserve_terminal {t u : WState} (i : Nat)
    (hstep : WStep t u) (hdone : t.workers[i]? = some WPhase.done) :
    u.workers[i]? = some WPhase.done ∧
    (findItem u i = findItem t i ∨ findItem u i = none) ∧
    (u.trace = t.trace ∨
      ∃ e, u.trace = t.trace ++ [e] ∧ eventItemId e ≠ some i) := by
  cases hstep with
  | clear => exact ⟨hdone, Or.inr rfl, Or.inl rfl⟩
  | search k hk =>
      have hki : k ≠ i := by
        intro hh
        rw [hh, hdone] at hk
        simp at hk
      obtain ⟨h1, h2, h3, h4⟩ := doStep_preserve i k (WEvent.setSearching k)
        WPhase.resolving hki rfl hdone
      exact ⟨h1, Or.inl h2, Or.inr ⟨_, h3, h4⟩⟩
  | resolveOk k t2 a u2 hk =>
      have hki : k ≠ i := by
        intro hh
        rw [hh, hdone] at hk
        simp at hk
      obtain ⟨h1, h2, h3, h4⟩ := doStep_preserve i k
        (WEvent.setResolved k (pyTake t2 50) a u2) WPhase.fetching hki rfl
        hdone
      exact ⟨h1, Or.inl h2, Or.inr ⟨_, h3, h4⟩⟩
  | fail k msg hk =>
      have hki : k ≠ i := by
        intro hh
        rcases hk with hk | hk <;> (rw [hh, hdone] at hk; simp at hk)
      obtain ⟨h1, h2, h3, h4⟩ := doStep_preserve i k
        (WEvent.setError k (pyTake msg 100)) WPhase.done hki rfl hdone
      exact ⟨h1, Or.inl h2, Or.inr ⟨_, h3, h4⟩⟩
  | progress k dled tot hk ht =>
      have hki : k ≠ i := by
        intro hh
        rw [hh, hdone] at hk
        simp at hk
      obtain ⟨h1, h2, h3, h4⟩ := doStep_preserve i k
        (WEvent.setProgress k ((100 * dled) / tot)) WPhase.fetching hki rfl
        hdone
      exact ⟨h1, Or.inl h2, Or.inr ⟨_, h3, h4⟩⟩
  | finished k hk =>
      have hki : k ≠ i := by
        intro hh
        rw [hh, hdone] at hk
        simp at hk
      obtain ⟨h1, h2, h3, h4⟩ := doStep_preserve i k
        (WEvent.setFinished k) WPhase.fetching hki rfl hdone
      exact ⟨h1, Or.inl h2, Or.inr ⟨_, h3, h4⟩⟩
  | complete k fp hk =>
      have hki : k ≠ i := by
        intro hh
        rw [hh, hdone] at hk
        simp at hk
      obtain ⟨h1, h2, h3, h4⟩ := doStep_preserve i k
        (WEvent.setComplete k fp) WPhase.done hki rfl hdone
      exact ⟨h1, Or.inl h2, Or.inr ⟨_, h3, h4⟩⟩

theorem step_trace_no_batch {t u : WState} (hstep : WStep t u) :
    u.trace = t.trace ∨
      ∃ e, u.trace = t.trace ++ [e] ∧ isBatchEvent e = false := by
  cases hstep with
  | clear => exact Or.inl rfl
  | search k hk => exact Or.inr ⟨_, rfl, rfl⟩
  | resolveOk k t2 a u2 hk => exact Or.inr ⟨_, rfl, rfl⟩
  | fail k msg hk => exact Or.inr ⟨_, rfl, rfl⟩
  | progress k dled tot hk ht => exact Or.inr ⟨_, rfl, rfl⟩
  | finished k hk => exact Or.inr ⟨_, rfl, rfl⟩
  | complete k fp hk => exact Or.inr ⟨_, rfl, rfl⟩

theorem reach_trace_no_batch {qs : List String} {s : WState}
    (h : Steps (start_download qs) s) :
    ∀ e ∈ s.trace, isBatchEvent e = false := by
  induction h with
  | refl =>
      intro e he
      cases he
  | tail _ hstep ih =>
      intro e he
      rcases step_trace_no_batch hstep with heq | ⟨e0, heq, hb⟩
      · rw [heq] at he
        exact ih e he
      · rw [heq] at he
        rcases List.mem_append.mp he with h2 | h2
        · exact ih e h2
        · rw [List.mem_singleton.mp h2]
          exact hb

theorem step_workers_length {t u : WState} (hstep : WStep t u) :
    u.workers.length = t.workers.length := by
  cases hstep <;> simp [doStep]

theorem reach_workers_length {qs : List String} {s : WState}
    (h : Steps (start_download qs) s) :
    s.workers.length = (cleanQueries qs).length := by
  induction h with
  | refl =>
      show ((startDownloadItems qs [] 0).1.map (fun _ => WPhase.init)).length
        = _
      rw [startDownloadItems_eq]
      simp
  | tail _ hstep ih =>
      rw [step_workers_length hstep]
      exact ih

/-! ## Claims -/

/-- C1, counterexample: the claim says at most one item can ever hold an
active status (Resolving/Downloading).  In the code, `start_download`
spawns one thread per query immediately, so a reachable interleaving puts
both items of a two-query batch in status `"downloading"` at the same
time. -/
theorem c1_single_worker_counterexample :
    ∃ s, Steps (start_download ["a", "b"]) s ∧
      statusOf s 0 = some "downloading" ∧
      statusOf s 1 = some "downloading" ∧
      isActiveStatus "downloading" = true := by
  refine ⟨_, Steps.tail (Steps.tail (Steps.tail (Steps.tail (Steps.refl _)
    (WStep.search 0 (by decide)))
    (WStep.resolveOk 0 "t" "ar" "u" (by decide)))
    (WStep.search 1 (by decide)))
    (WStep.resolveOk 1 "t" "ar" "u" (by decide)), ?_⟩
  decide

/-- C1, amended: the manager does not bound the number of active workers;
instead it runs exactly one worker per submitted item: in every reachable
state the number of worker threads equals the number of non-blank
submitted queries, which equals the number of items. -/
theorem c1_one_worker_per_item (qs : List String) (s : WState)
    (hreach : Steps (start_download qs) s) :
    s.workers.length = (cleanQueries qs).length ∧
    (start_download qs).items.length = (cleanQueries qs).length := by
  refine ⟨reach_workers_length hreach, ?_⟩
  rw [start_download_items]
  simp

/-- Witness for `c1_one_worker_per_item` at a concrete batch. -/
theorem c1_one_worker_per_item_witness :
    (start_download ["a", "b"]).workers.length =
      (cleanQueries ["a", "b"]).length ∧
    (start_download ["a", "b"]).items.length =
      (cleanQueries ["a", "b"]).length :=
  c1_one_worker_per_item ["a", "b"] (start_download ["a", "b"])
    (Steps.refl _)

/-- C2, counterexample: the claim says item i reaches a terminal state
before item j's worker starts, for i < j.  In the code all workers start at
submission and run concurrently: a reachable interleaving completes item 1
while item 0 is still pending (its worker has not run at all). -/
theorem c2_fifo_counterexample :
    ∃ s, Steps (start_download ["a", "b"]) s ∧
      statusOf s 1 = some "complete" ∧
      statusOf s 0 = some "pending" ∧
      isTerminalStatus "complete" = true := by
  refine ⟨_, Steps.tail (Steps.tail (Steps.tail (Steps.refl _)
    (WStep.search 1 (by decide)))
    (WStep.resolveOk 1 "t" "ar" "u" (by decide)))
    (WStep.complete 1 none (by decide)), ?_⟩
  decide

/-- C2, amended: items are appended in submission order but are processed
concurrently, one independent worker per item started at submission; no
processing order is enforced: for a two-item batch both terminal orders are
reachable (item 0 can finish while item 1 is untouched, and item 1 can
finish while item 0 is untouched). -/
theorem c2_concurrent_no_order :
    (∃ s, Steps (start_download ["a", "b"]) s ∧
      statusOf s 0 = some "complete" ∧ statusOf s 1 = some "pending") ∧
    (∃ s, Steps (start_download ["a", "b"]) s ∧
      statusOf s 1 = some "complete" ∧ statusOf s 0 = some "pending") ∧
    (start_download ["a", "b"]).workers = [WPhase.init, WPhase.init] := by
  refine ⟨⟨_, Steps.tail (Steps.tail (Steps.tail (Steps.refl _)
      (WStep.search 0 (by decide)))
      (WStep.resolveOk 0 "t" "ar" "u" (by decide)))
      (WStep.complete 0 none (by decide)), by decide⟩,
    ⟨_, Steps.tail (Steps.tail (Steps.tail (Steps.refl _)
      (WStep.search 1 (by decide)))
      (WStep.resolveOk 1 "t" "ar" "u" (by decide)))
      (WStep.complete 1 none (by decide)), by decide⟩, by decide⟩

/-- C3, counterexample: a two-item batch in which both items reach a
terminal state (both complete); the claim requires exactly one
batch-complete event at that point, but the code's trace contains none —
the code has no batch-complete emission and no running flag at all. -/
theorem c3_batch_complete_counterexample :
    ∃ s, Steps (start_download ["a", "b"]) s ∧
      (∀ it ∈ get_all s, isTerminalStatus it.status = true) ∧
      s.trace.countP isBatchEvent = 0 ∧
      ¬ s.trace.countP isBatchEvent = 1 := by
  refine ⟨_, Steps.tail (Steps.tail (Steps.tail (Steps.tail (Steps.tail
    (Steps.tail (Steps.refl _)
    (WStep.search 0 (by decide)))
    (WStep.resolveOk 0 "t" "ar" "u" (by decide)))
    (WStep.complete 0 none (by decide)))
    (WStep.search 1 (by decide)))
    (WStep.resolveOk 1 "t" "ar" "u" (by decide)))
    (WStep.complete 1 none (by decide)), ?_⟩
  decide

/-- C3, amended: the code never emits a batch-complete event (and has no
running flag): in every reachable state of a submitted batch the trace of
emitted updates contains zero batch-complete events; completion can only
be observed per item through the snapshot. -/
theorem c3_no_batch_event (qs : List String) (s : WState)
    (hreach : Steps (start_download qs) s) :
    s.trace.countP isBatchEvent = 0 := by
  rw [List.countP_eq_zero]
  intro e he
  simp [reach_trace_no_batch hreach e he]

/-- Witness for `c3_no_batch_event` on a concrete reachable state. -/
theorem c3_no_batch_event_witness :
    (doStep (start_download ["a"]) 0 (WEvent.setSearching 0)
      WPhase.resolving).trace.countP isBatchEvent = 0 :=
  c3_no_batch_event ["a"] _
    (Steps.tail (Steps.refl _) (WStep.search 0 (by decide)))

/-- C6: terminal states are absorbing.  Once an item of a submitted batch
holds a terminal status, every further execution of the system leaves the
item unchanged — removal by the explicit `clear` route being the only
exception — and no further update event is ever emitted for that item. -/
theorem c6_terminal_absorbing (qs : List String) (s s' : WState) (i : Nat)
    (it : Item) (hreach : Steps (start_download qs) s)
    (hfind : findItem s i = some it)
    (hterm : isTerminalStatus it.status = true)
    (hsteps : Steps s s') :
    (findItem s' i = some it ∨ findItem s' i = none) ∧
    ∃ tl, s'.trace = s.trace ++ tl ∧ ∀ e ∈ tl, eventItemId e ≠ some i := by
  have hid0 : it.id = i := by simpa using List.find?_some hfind
  have hdone : s.workers[i]? = some WPhase.done := by
    have h2 := winv_reach hreach it (List.mem_of_find?_eq_some hfind) hterm
    rwa [hid0] at h2
  have main : s'.workers[i]? = some WPhase.done ∧
      (findItem s' i = some it ∨ findItem s' i = none) ∧
      ∃ tl, s'.trace = s.trace ++ tl ∧ ∀ e ∈ tl, eventItemId e ≠ some i := by
    induction hsteps with
    | refl => exact ⟨hdone, Or.inl hfind, [], by simp, by simp⟩
    | tail h1 hstep ih =>
        obtain ⟨hd, hfind2, tl, htr, hev⟩ := ih
        obtain ⟨hd2, hf2, ht2⟩ := step_preserve_terminal i hstep hd
        refine ⟨hd2, ?_, ?_⟩
        · rcases hf2 with hEq | hnone
          · rw [hEq]
            exact hfind2
          · exact Or.inr hnone
        · rcases ht2 with hsame | ⟨e0, htr2, hne⟩
          · exact ⟨tl, by rw [hsame, htr], hev⟩
          · refine ⟨tl ++ [e0], by rw [htr2, htr, List.append_assoc], ?_⟩
            intro e he
            rcases List.mem_append.mp he with h2 | h2
            · exact hev e h2
            · rw [List.mem_singleton.mp h2]
              exact hne
  exact ⟨main.2.1, main.2.2⟩

/-- Witness for `c6_terminal_absorbing`: a one-item batch whose worker has
failed; the item is in the terminal status `"error"`. -/
theorem c6_terminal_absorbing_witness :
    (findItem (doStep (doStep (start_download ["a"]) 0
        (WEvent.setSearching 0) WPhase.resolving) 0
        (WEvent.setError 0 (pyTake "boom" 100)) WPhase.done) 0 =
      some { id := 0, query := "a", status := "error", progress := 0,
             title := "a", artist := "", error := some "boom",
             file_path := none, preview_url := none } ∨
     findItem (doStep (doStep (start_download ["a"]) 0
        (WEvent.setSearching 0) WPhase.resolving) 0
        (WEvent.setError 0 (pyTake "boom" 100)) WPhase.done) 0 = none) ∧
    ∃ tl, (doStep (doStep (start_download ["a"]) 0
        (WEvent.setSearching 0) WPhase.resolving) 0
        (WEvent.setError 0 (pyTake "boom" 100)) WPhase.done).trace =
      (doStep (doStep (start_download ["a"]) 0
        (WEvent.setSearching 0) WPhase.resolving) 0
        (WEvent.setError 0 (pyTake "boom" 100)) WPhase.done).trace ++ tl ∧
      ∀ e ∈ tl, eventItemId e ≠ some 0 :=
  c6_terminal_absorbing ["a"] _ _ 0
    { id := 0, query := "a", status := "error", progress := 0,
      title := "a", artist := "", error := some "boom",
      file_path := none, preview_url := none }
    (Steps.tail (Steps.tail (Steps.refl _) (WStep.search 0 (by decide)))
      (WStep.fail 0 "boom" (Or.inl (by decide))))
    (by decide) (by decide) (Steps.refl _)

/-- C8: the batch submit loop of `start_download` appends exactly one new
item per non-blank (after stripping) query, in input order, to the tail of
the collection; each new item is created pending with progress 0, no
error, no file path, no preview url, and a title obtained by truncating
the query to 50 characters. -/
theorem c8_add_items_spec (queries : List String) (items : List Item)
    (n : Nat) :
    (startDownloadItems queries items n).1 =
      items ++ (cleanQueries queries).mapIdx
        (fun i q => mkPendingItem (n + i) q) ∧
    ∀ it ∈ (cleanQueries queries).mapIdx
        (fun i q => mkPendingItem (n + i) q),
      it.status = "pending" ∧ it.progress = 0 ∧ it.error = none ∧
      it.file_path = none ∧ it.preview_url = none ∧
      it.title = pyTake it.query 50 ∧ it.artist = "" := by
  constructor
  · rw [startDownloadItems_eq]
  · intro it hit
    obtain ⟨i, hi, heq⟩ := List.exists_of_mem_mapIdx hit
    rw [← heq]
    exact ⟨rfl, rfl, rfl, rfl, rfl, rfl, rfl⟩

/-- C9, counterexample: the claim says every failed item carries a
non-empty message.  The worker stores `str(e)[:100]`; an exception whose
text is empty yields an item in status `"error"` with the empty string as
its message. -/
theorem c9_error_message_counterexample :
    ∃ s, Steps (start_download ["a"]) s ∧
      statusOf s 0 = some "error" ∧
      (findItem s 0).map Item.error = some (some "") ∧
      ("" : String).length = 0 := by
  refine ⟨_, Steps.tail (Steps.tail (Steps.refl _)
    (WStep.search 0 (by decide)))
    (WStep.fail 0 "" (Or.inl (by decide))), ?_⟩
  decide

/-- C9, amended: when a worker fails, its item moves to status `"error"`
with the exception text truncated to at most 100 characters (possibly
empty); the failure is contained to that item — every other item of the
queue is left exactly as it was — and since every item has its own
independent worker, the other items keep processing regardless. -/
theorem c9_error_contained (s : WState) (k : Nat) (msg : String)
    (it : Item)
    (hk : s.workers[k]? = some WPhase.resolving ∨
          s.workers[k]? = some WPhase.fetching)
    (hfind : findItem s k = some it) :
    findItem (doStep s k (WEvent.setError k (pyTake msg 100))
        WPhase.done) k =
      some { it with status := "error", error := some (pyTake msg 100) } ∧
    (pyTake msg 100).length ≤ 100 ∧
    (∀ it2 ∈ get_all s, it2.id ≠ k →
      it2 ∈ get_all (doStep s k (WEvent.setError k (pyTake msg 100))
        WPhase.done)) ∧
    WStep s (doStep s k (WEvent.setError k (pyTake msg 100))
      WPhase.done) := by
  have hid : it.id = k := by simpa using List.find?_some hfind
  refine ⟨?_, pyTake_length msg 100, ?_, WStep.fail k msg hk⟩
  · show (DownloadQueue.update (WEvent.setError k (pyTake msg 100))
      s.items).find? (fun it2 => it2.id == k) = _
    rw [find?_update]
    have hfind2 : s.items.find? (fun it2 => it2.id == k) = some it := hfind
    rw [hfind2, Option.map_some']
    simp only [updOne, hid, if_pos]
  · intro it2 h2 hne
    have heq : updOne (WEvent.setError k (pyTake msg 100)) it2 = it2 := by
      refine updOne_of_ne _ it2 ?_
      simp only [eventItemId, ne_eq, Option.some.injEq]
      exact fun hh => hne hh.symm
    show it2 ∈ s.items.map (updOne (WEvent.setError k (pyTake msg 100)))
    rw [← heq]
    exact List.mem_map_of_mem _ h2

/-- Witness for `c9_error_contained`: a concrete failing worker in a
two-item batch. -/
theorem c9_error_contained_witness :
    findItem (doStep (doStep (start_download ["a", "b"]) 0
        (WEvent.setSearching 0) WPhase.resolving) 0
        (WEvent.setError 0 (pyTake "oops" 100)) WPhase.done) 0 =
      some { id := 0, query := "a", status := "error", progress := 0,
             title := "a", artist := "", error := some (pyTake "oops" 100),
             file_path := none, preview_url := none } ∧
    (pyTake "oops" 100).length ≤ 100 ∧
    (∀ it2 ∈ get_all (doStep (start_download ["a", "b"]) 0
        (WEvent.setSearching 0) WPhase.resolving), it2.id ≠ 0 →
      it2 ∈ get_all (doStep (doStep (start_download ["a", "b"]) 0
        (WEvent.setSearching 0) WPhase.resolving) 0
        (WEvent.setError 0 (pyTake "oops" 100)) WPhase.done)) ∧
    WStep (doStep (start_download ["a", "b"]) 0
        (WEvent.setSearching 0) WPhase.resolving)
      (doStep (doStep (start_download ["a", "b"]) 0
        (WEvent.setSearching 0) WPhase.resolving) 0
        (WEvent.setError 0 (pyTake "oops" 100)) WPhase.done) :=
  c9_error_contained _ 0 "oops"
    { id := 0, query := "a", status := "searching", progress := 0,
      title := "a", artist := "", error := none,
      file_path := none, preview_url := none }
    (Or.inl (by decide)) (by decide)

/-- C10: the implementation exposes intermediate status values outside the
spec's vocabulary: after the engine's `finished` callback and before the
worker marks the item complete, the snapshot shows status `"processing"`
with progress 95, and during resolution it shows `"searching"`. -/
theorem c10_noncanonical_statuses :
    (∃ s, Steps (start_download ["a"]) s ∧
      ∃ it ∈ get_all s, it.status = "processing" ∧ it.progress = 95 ∧
        canonicalStatuses.contains it.status = false) ∧
    (∃ s, Steps (start_download ["a"]) s ∧
      ∃ it ∈ get_all s, it.status = "searching" ∧
        canonicalStatuses.contains it.status = false) := by
  constructor
  · refine ⟨_, Steps.tail (Steps.tail (Steps.tail (Steps.refl _)
      (WStep.search 0 (by decide)))
      (WStep.resolveOk 0 "t" "ar" "u" (by decide)))
      (WStep.finished 0 (by decide)), ?_⟩
    decide
  · refine ⟨_, Steps.tail (Steps.refl _) (WStep.search 0 (by decide)), ?_⟩
    decide

/-- C4, counterexample: the claim says cancelling synchronously marks the
running flag false (and every pending item canceled) before the call
returns.  `_on_cancel` only sets the shared event and the status label: on
a state with an active run (cancel button enabled, download button
disabled), the running indication is unchanged when the call returns, and
the desktop app has no pending-item queue at all. -/
theorem c4_cancel_counterexample :
    (onCancel { stopEvent := false, statusLabel := "40%",
                btnDownloadEnabled := false, btnCancelEnabled := true,
                progressValue := 40 }).stopEvent = true ∧
    (onCancel { stopEvent := false, statusLabel := "40%",
                btnDownloadEnabled := false, btnCancelEnabled := true,
                progressValue := 40 }).btnCancelEnabled = true ∧
    (onCancel { stopEvent := false, statusLabel := "40%",
                btnDownloadEnabled := false, btnCancelEnabled := true,
                progressValue := 40 }).btnDownloadEnabled = false := by
  decide

/-- C4, amended: cancelling sets the shared cancellation signal and the
status label and returns without blocking and without touching anything
else (there is no pending-item queue in this app — a single download runs
at a time); the running indication is cleared only by `_finish_download`,
which runs once the worker has reached a terminal state. -/
theorem c4_cancel_sets_signal_only (s : DAppState) :
    (onCancel s).stopEvent = true ∧
    (onCancel s).statusLabel = "Cancelando..." ∧
    (onCancel s).btnCancelEnabled = s.btnCancelEnabled ∧
    (onCancel s).btnDownloadEnabled = s.btnDownloadEnabled ∧
    (onCancel s).progressValue = s.progressValue ∧
    (finishDownload (onCancel s) false).btnCancelEnabled = false ∧
    (finishDownload (onCancel s) false).btnDownloadEnabled = true :=
  ⟨rfl, rfl, rfl, rfl, rfl, rfl, rfl⟩

theorem runHooks_raised (hooks : List DHook)
    (hsome : ∃ d ∈ hooks, d.stopSet = true) :
    (runHooks hooks).2 = true := by
  induction hooks with
  | nil =>
      obtain ⟨d, hd, _⟩ := hsome
      cases hd
  | cons d rest ih =>
      by_cases hd : d.stopSet = true
      · simp [runHooks, hd]
      · have h2 : ∃ d2 ∈ rest, d2.stopSet = true := by
          obtain ⟨d2, hd2, hds⟩ := hsome
          rcases List.mem_cons.mp hd2 with h | h
          · rw [h] at hds
            exact absurd hds hd
          · exact ⟨d2, h, hds⟩
        simp only [runHooks, hd, Bool.false_eq_true, if_false]
        exact ih h2

/-- C5: whenever the worker's cancellation check (inside the progress
hook) observes the shared signal set — and the signal, once set, stays set
for the rest of the run, as `threading.Event` is only cleared before a new
run — the fetch is aborted via the raised `DownloadError` and the run's
terminal message is `canceled`, never `error`. -/
theorem c5_cancel_observed_canceled (hooks : List DHook)
    (fetchRaises : Bool) (stopAtEnd : Bool) (emsg : String)
    (hmono : ∀ d ∈ hooks, d.stopSet = true → stopAtEnd = true)
    (hsome : ∃ d ∈ hooks, d.stopSet = true) :
    (runWorker hooks fetchRaises stopAtEnd emsg).getLast? =
      some (DMsg.canceled "Descarga cancelada por usuario") ∧
    ∀ t, (runWorker hooks fetchRaises stopAtEnd emsg).getLast? ≠
      some (DMsg.error t) := by
  have hstop : stopAtEnd = true := by
    obtain ⟨d, hd, hds⟩ := hsome
    exact hmono d hd hds
  have hraised := runHooks_raised hooks hsome
  have hlast : (runWorker hooks fetchRaises stopAtEnd emsg).getLast? =
      some (DMsg.canceled "Descarga cancelada por usuario") := by
    simp only [runWorker, hraised, hstop, Bool.true_or, if_true]
    rw [List.getLast?_concat]
  refine ⟨hlast, ?_⟩
  intro t
  rw [hlast]
  simp

/-- Witness for `c5_cancel_observed_canceled`: a single hook call that
observes the signal set. -/
theorem c5_cancel_observed_canceled_witness :
    (runWorker [{ stopSet := true, hstatus := "downloading",
                  downloaded := 5, total := 10, filename := "f",
                  errMsg := "" }]
      false true "").getLast? =
      some (DMsg.canceled "Descarga cancelada por usuario") ∧
    ∀ t, (runWorker [{ stopSet := true, hstatus := "downloading",
                       downloaded := 5, total := 10, filename := "f",
                       errMsg := "" }]
      false true "").getLast? ≠ some (DMsg.error t) :=
  c5_cancel_observed_canceled
    [{ stopSet := true, hstatus := "downloading", downloaded := 5,
       total := 10, filename := "f", errMsg := "" }]
    false true "" (by decide) (by decide)

/-- C7, counterexample: the web hook stores `int(done/total*100)` without
clamping, so with an estimated total smaller than the bytes actually
received the stored progress exceeds 100, and when the engine switches
from a small estimate to the real total the stored progress decreases. -/
theorem c7_progress_counterexample :
    (progress_hook { status := "downloading", total_bytes := none,
                     total_bytes_estimate := 2, downloaded_bytes := 3 }
      (mkPendingItem 0 "q")).progress = 150 ∧
    ¬ ((progress_hook { status := "downloading", total_bytes := none,
                        total_bytes_estimate := 2, downloaded_bytes := 3 }
      (mkPendingItem 0 "q")).progress ≤ 100) ∧
    (progress_hook { status := "downloading", total_bytes := some 2000,
                     total_bytes_estimate := 0, downloaded_bytes := 1000 }
      (progress_hook { status := "downloading", total_bytes := none,
                       total_bytes_estimate := 1000,
                       downloaded_bytes := 900 }
        (mkPendingItem 0 "q"))).progress <
      (progress_hook { status := "downloading", total_bytes := none,
                       total_bytes_estimate := 1000,
                       downloaded_bytes := 900 }
        (mkPendingItem 0 "q")).progress := by
  decide

/-- C7, amended: the stored value is `int(100*done/total)` with no
clamping; provided the engine reports a fixed positive total and
non-decreasing downloaded bytes that never exceed that total (the normal
behaviour when `total_bytes` is exact), successive stored progress values
are non-decreasing and lie within [0, 100]. -/
theorem c7_progress_monotone_bounded (it : Item) (d1 d2 : PHook) (t : Nat)
    (h1s : d1.status = "downloading") (h2s : d2.status = "downloading")
    (h1t : d1.total_bytes = some t) (h2t : d2.total_bytes = some t)
    (ht : 0 < t) (hmono : d1.downloaded_bytes ≤ d2.downloaded_bytes)
    (hle : d2.downloaded_bytes ≤ t) :
    (progress_hook d1 it).progress ≤
      (progress_hook d2 (progress_hook d1 it)).progress ∧
    (progress_hook d1 it).progress ≤ 100 ∧
    (progress_hook d2 (progress_hook d1 it)).progress ≤ 100 := by
  have htz : ¬ t = 0 := by omega
  have htot1 : hookTotal d1 = t := by
    simp only [hookTotal, h1t]
    rw [if_neg htz]
  have htot2 : hookTotal d2 = t := by
    simp only [hookTotal, h2t]
    rw [if_neg htz]
  have hv1 : (progress_hook d1 it).progress =
      (100 * d1.downloaded_bytes) / t := by
    simp only [progress_hook, h1s, htot1, ht, if_pos, if_true]
  have hv2 : (progress_hook d2 (progress_hook d1 it)).progress =
      (100 * d2.downloaded_bytes) / t := by
    simp only [progress_hook, h2s, htot2, ht, if_pos, if_true]
  rw [hv1, hv2]
  have hb2 : (100 * d2.downloaded_bytes) / t ≤ 100 := by
    have hmul : 100 * d2.downloaded_bytes ≤ 100 * t :=
      Nat.mul_le_mul_left 100 hle
    calc (100 * d2.downloaded_bytes) / t ≤ (100 * t) / t :=
          Nat.div_le_div_right hmul
      _ = 100 := Nat.mul_div_cancel 100 ht
  have hb1 : (100 * d1.downloaded_bytes) / t ≤ 100 := by
    have hmul : 100 * d1.downloaded_bytes ≤ 100 * t :=
      Nat.mul_le_mul_left 100 (le_trans hmono hle)
    calc (100 * d1.downloaded_bytes) / t ≤ (100 * t) / t :=
          Nat.div_le_div_right hmul
      _ = 100 := Nat.mul_div_cancel 100 ht
  exact ⟨Nat.div_le_div_right (Nat.mul_le_mul_left 100 hmono), hb1, hb2⟩

/-- Witness for `c7_progress_monotone_bounded` at concrete hook data. -/
theorem c7_progress_monotone_bounded_witness :
    (progress_hook { status := "downloading", total_bytes := some 10,
                     total_bytes_estimate := 0, downloaded_bytes := 3 }
      (mkPendingItem 0 "q")).progress ≤
      (progress_hook { status := "downloading", total_bytes := some 10,
                       total_bytes_estimate := 0, downloaded_bytes := 7 }
        (progress_hook { status := "downloading", total_bytes := some 10,
                         total_bytes_estimate := 0,
                         downloaded_bytes := 3 }
          (mkPendingItem 0 "q"))).progress ∧
    (progress_hook { status := "downloading", total_bytes := some 10,
                     total_bytes_estimate := 0, downloaded_bytes := 3 }
      (mkPendingItem 0 "q")).progress ≤ 100 ∧
    (progress_hook { status := "downloading", total_bytes := some 10,
                     total_bytes_estimate := 0, downloaded_bytes := 7 }
      (progress_hook { status := "downloading", total_bytes := some 10,
                       total_bytes_estimate := 0, downloaded_bytes := 3 }
        (mkPendingItem 0 "q"))).progress ≤ 100 :=
  c7_progress_monotone_bounded (mkPendingItem 0 "q")
    { status := "downloading", total_bytes := some 10,
      total_bytes_estimate := 0, downloaded_bytes := 3 }
    { status := "downloading", total_bytes := some 10,
      total_bytes_estimate := 0, downloaded_bytes := 7 }
    10 rfl rfl rfl rfl (by decide) (by decide) (by decide)
